import Mathlib

/-!
Verification of the encrypted-storage core of the tickytock repository.

Strings of the source are modelled as `List Char`, byte arrays
(`Uint8Array` / `ArrayBuffer`) as `List Nat` whose members are below 256.
Each definition embeds one function of the source; platform primitives
(Web Crypto's AES-GCM, `TextEncoder`/`TextDecoder`, `parseInt`,
`String.prototype.split`, `String.prototype.match`) are embedded by their
specified observable behaviour.
-/

/-- The characters `String.prototype.match(/.{1,2}/g)` never puts in a match:
`.` does not match the ECMAScript line terminators. -/
def isLineTerm (c : Char) : Bool :=
  c = Char.ofNat 10 ∨ c = Char.ofNat 13 ∨ c = Char.ofNat 0x2028 ∨ c = Char.ofNat 0x2029

/-- Whitespace skipped by `parseInt` before the number (the common ASCII
white space and the BOM). -/
def jsWhitespace (c : Char) : Bool :=
  c = ' ' ∨ c = Char.ofNat 9 ∨ c = Char.ofNat 10 ∨ c = Char.ofNat 11 ∨
    c = Char.ofNat 12 ∨ c = Char.ofNat 13 ∨ c = Char.ofNat 0xa0 ∨ c = Char.ofNat 0xfeff

/-- Is `c` a hexadecimal digit as `parseInt(s, 16)` accepts them
(both cases). -/
def isHexDigitB (c : Char) : Bool :=
  ('0' ≤ c ∧ c ≤ '9') ∨ ('a' ≤ c ∧ c ≤ 'f') ∨ ('A' ≤ c ∧ c ≤ 'F')

/-- Value of one hexadecimal digit. -/
def hexVal (c : Char) : Nat :=
  if '0' ≤ c ∧ c ≤ '9' then c.toNat - '0'.toNat
  else if 'a' ≤ c ∧ c ≤ 'f' then c.toNat - 'a'.toNat + 10
  else c.toNat - 'A'.toNat + 10

/-- The maximal run of leading hex digits, as a number; `none` when there is
no leading digit (`parseInt` returns `NaN` then). -/
def parseHexDigits (s : List Char) : Option Nat :=
  let ds := s.takeWhile isHexDigitB
  if ds = [] then none else some (ds.foldl (fun a c => a * 16 + hexVal c) 0)

/-- `parseInt(s, 16)`: skip leading whitespace, read an optional sign, then
the longest run of hex digits; `none` models `NaN`.  (A leading `0x`/`0X` is
also stripped by `parseInt`; on the at-most-two-character chunks this model
is applied to, both readings yield the same byte, so it is not modelled.) -/
def jsParseIntHex (s : List Char) : Option Int :=
  let s1 := s.dropWhile jsWhitespace
  match s1 with
  | '-' :: rest => (parseHexDigits rest).map (fun n => -(n : Int))
  | '+' :: rest => (parseHexDigits rest).map (fun n => (n : Int))
  | _ => (parseHexDigits s1).map (fun n => (n : Int))

/-- Storing a number into a `Uint8Array`: `ToUint8` — `NaN` becomes 0,
other values are taken modulo 2^8. -/
def toUint8 (v : Option Int) : Nat :=
  match v with
  | none => 0
  | some i => (i % 256).toNat

/-- `String.prototype.match(/.{1,2}/g)`: the two-character (one at a rag end)
chunks of the string, line terminators never inside a match. -/
def jsChunks : List Char → List (List Char)
  | [] => []
  | [c] => if isLineTerm c then [] else [[c]]
  | c :: c2 :: rest =>
    if isLineTerm c then jsChunks (c2 :: rest)
    else if isLineTerm c2 then [c] :: jsChunks rest
    else [c, c2] :: jsChunks rest

/-- `String.prototype.split(sep)` for a one-character separator. -/
def jsSplit (sep : Char) : List Char → List (List Char)
  | [] => [[]]
  | c :: rest =>
    if c = sep then [] :: jsSplit sep rest
    else
      match jsSplit sep rest with
      | [] => [[c]]
      | p :: ps => (c :: p) :: ps

/-- Lowercase hex digit character, as `Number.prototype.toString(16)`
writes digits. -/
def hexDigit (n : Nat) : Char :=
  if n < 10 then Char.ofNat ('0'.toNat + n) else Char.ofNat ('a'.toNat + (n - 10))

/-- `byte.toString(16).padStart(2, '0')` for one byte (value below 256). -/
def byteToHex (b : Nat) : List Char :=
  [hexDigit (b / 16), hexDigit (b % 16)]

/-- `EncryptionHelper.toHexString`: fold the bytes into a lowercase,
zero-padded hex string. -/
def toHexString (bytes : List Nat) : List Char :=
  (bytes.map byteToHex).flatten

/-- UTF-8 encoding of one Unicode scalar value (`TextEncoder`). -/
def utf8EncodeChar (n : Nat) : List Nat :=
  if n < 0x80 then [n]
  else if n < 0x800 then [0xc0 + n / 64, 0x80 + n % 64]
  else if n < 0x10000 then [0xe0 + n / 4096, 0x80 + (n / 64) % 64, 0x80 + n % 64]
  else [0xf0 + n / 262144, 0x80 + (n / 4096) % 64, 0x80 + (n / 64) % 64, 0x80 + n % 64]

/-- `new TextEncoder().encode(s)`: UTF-8 bytes of the string. -/
def utf8Encode (s : List Char) : List Nat :=
  (s.map (fun c => utf8EncodeChar c.toNat)).flatten

/-- One step of `new TextDecoder().decode` (the default, non-fatal
decoder): from the first byte `b` and the remaining bytes, the scalar
value decoded and how many bytes the sequence consumed.  A byte that
starts no well-formed sequence yields U+FFFD (the exact number of
replacement characters on ill-formed input is approximated; the theorems
only apply the decoder to well-formed encoder output). -/
def utf8DecodeStep (b : Nat) (rest : List Nat) : Nat × Nat :=
  if b < 0x80 then (b, 1)
  else if b < 0xc0 then (0xfffd, 1)
  else if b < 0xe0 then
    match rest with
    | b2 :: _ =>
      if 0x80 ≤ b2 ∧ b2 < 0xc0 then ((b - 0xc0) * 64 + (b2 - 0x80), 2) else (0xfffd, 1)
    | [] => (0xfffd, 1)
  else if b < 0xf0 then
    match rest with
    | b2 :: b3 :: _ =>
      if (0x80 ≤ b2 ∧ b2 < 0xc0) ∧ (0x80 ≤ b3 ∧ b3 < 0xc0) then
        ((b - 0xe0) * 4096 + (b2 - 0x80) * 64 + (b3 - 0x80), 3)
      else (0xfffd, 1)
    | _ => (0xfffd, 1)
  else if b < 0xf8 then
    match rest with
    | b2 :: b3 :: b4 :: _ =>
      if (0x80 ≤ b2 ∧ b2 < 0xc0) ∧ (0x80 ≤ b3 ∧ b3 < 0xc0) ∧ (0x80 ≤ b4 ∧ b4 < 0xc0) then
        ((b - 0xf0) * 262144 + (b2 - 0x80) * 4096 + (b3 - 0x80) * 64 + (b4 - 0x80), 4)
      else (0xfffd, 1)
    | _ => (0xfffd, 1)
  else (0xfffd, 1)

/-- `new TextDecoder().decode(bytes)`: repeatedly decode one sequence and
continue after the bytes it consumed. -/
def utf8Decode : List Nat → List Char
  | [] => []
  | b :: rest =>
    Char.ofNat (utf8DecodeStep b rest).1 ::
      utf8Decode (rest.drop ((utf8DecodeStep b rest).2 - 1))
termination_by l => l.length
decreasing_by
  simp only [List.length_cons, List.length_drop]
  omega

/-- Modelled from the behaviour of the Web Crypto primitives the source
injects through its `CryptoInterface` (`crypto.subtle` with SHA-256 and
AES-256-GCM).  `enc key iv plaintext` is the ciphertext-with-tag of
`subtle.encrypt`, `dec` the authenticated decryption of `subtle.decrypt`
(`none` models the thrown `OperationError`), `digest` is SHA-256.  The
proof fields state the AEAD contract the theorems rely on: decryption
inverts encryption, a ciphertext made from bytes is bytes, and a
ciphertext is never empty (AES-GCM always appends a 16-byte tag). -/
structure SubtleCrypto where
  enc : List Nat → List Nat → List Nat → List Nat
  dec : List Nat → List Nat → List Nat → Option (List Nat)
  digest : List Nat → List Nat
  dec_enc : ∀ k iv pt, dec k iv (enc k iv pt) = some pt
  enc_bytes : ∀ k iv pt, (∀ b ∈ pt, b < 256) → ∀ b ∈ enc k iv pt, b < 256
  enc_ne : ∀ k iv pt, enc k iv pt ≠ []

/-- The error taxonomy observable from `EncryptionHelper.decrypt`:
`decryptionError` is the source's `DecryptionError` class, `genericError`
any other thrown exception (the plain `Error` of `fromHexString`, the
`OperationError` of `subtle.decrypt`). -/
inductive JsError where
  | decryptionError
  | genericError
deriving DecidableEq

/-- `EncryptionHelper`: a passphrase together with the injected crypto
implementation. -/
structure EncryptionHelper where
  passphrase : List Char
  crypto : SubtleCrypto

/-- The constructor of `EncryptionHelper`: throws on an empty passphrase
(`'Passphrase cannot be empty'`), modelled as `none`. -/
def EncryptionHelper.make (M : SubtleCrypto) (passphrase : List Char) :
    Option EncryptionHelper :=
  if passphrase = [] then none else some ⟨passphrase, M⟩

/-- `getKey`: the AES key material is the SHA-256 digest of the UTF-8
passphrase (cached in the source; caching is observationally irrelevant). -/
def EncryptionHelper.key (h : EncryptionHelper) : List Nat :=
  h.crypto.digest (utf8Encode h.passphrase)

/-- `EncryptionHelper.encrypt`: UTF-8 encode the data, encrypt it under the
derived key and the given 12-byte IV (the source draws the IV from
`getRandomValues`; here it is the explicit random input), and return
`hex(iv)` and `hex(ciphertext)` joined by `'|'`. -/
def EncryptionHelper.encrypt (h : EncryptionHelper) (iv : List Nat) (data : List Char) :
    List Char :=
  toHexString iv ++ '|' :: toHexString (h.crypto.enc h.key iv (utf8Encode (data)))

/-- `EncryptionHelper.fromHexString`: chunk with `/.{1,2}/g` (a `null`
match — empty input — throws a plain `Error`), then build a `Uint8Array`
from `parseInt(chunk, 16)` of each chunk. -/
def EncryptionHelper.fromHexString (s : List Char) : Except JsError (List Nat) :=
  match jsChunks s with
  | [] => Except.error JsError.genericError
  | ms => Except.ok (ms.map (fun chunk => toUint8 (jsParseIntHex chunk)))

/-- The body of the `try` block of `EncryptionHelper.decrypt`: split on
`'|'`, require exactly two parts (else a `DecryptionError` is thrown),
hex-decode both halves, authenticated-decrypt, and UTF-8 decode the
plaintext bytes. -/
def EncryptionHelper.decryptInner (h : EncryptionHelper) (data : List Char) :
    Except JsError (List Char) :=
  match jsSplit '|' data with
  | [ivs, cts] =>
    match EncryptionHelper.fromHexString ivs, EncryptionHelper.fromHexString cts with
    | Except.ok iv, Except.ok ct =>
      match h.crypto.dec h.key iv ct with
      | some ptBytes => Except.ok (utf8Decode ptBytes)
      | none => Except.error JsError.genericError
    | Except.error e, _ => Except.error e
    | _, Except.error e => Except.error e
  | _ => Except.error JsError.decryptionError

/-- `EncryptionHelper.decrypt`: the `catch` clause re-raises a
`DecryptionError` unchanged and wraps every other exception in a
`DecryptionError`. -/
def EncryptionHelper.decrypt (h : EncryptionHelper) (data : List Char) :
    Except JsError (List Char) :=
  match h.decryptInner data with
  | Except.ok s => Except.ok s
  | Except.error _ => Except.error JsError.decryptionError

/-- A simple keyed checksum used by the executable witness instance of
`SubtleCrypto` (it stands in for the AES-GCM tag; no cryptographic
strength is needed for the theorems, only the structural AEAD contract). -/
def toyMac (k iv pt : List Nat) : Nat :=
  (k ++ 257 :: iv ++ 257 :: pt).foldl (fun a b => (a * 131 + b + 1) % (2 ^ 128)) 7

/-- A number spread into 16 little-endian bytes. -/
def natBytes16 (n : Nat) : List Nat :=
  (List.range 16).map (fun i => n / 256 ^ i % 256)

/-- Witness encryption: the plaintext followed by a 16-byte tag. -/
def toyEnc (k iv pt : List Nat) : List Nat :=
  pt ++ natBytes16 (toyMac k iv pt)

/-- Witness decryption: strip the 16-byte tag and verify it. -/
def toyDec (k iv ct : List Nat) : Option (List Nat) :=
  if ct.length < 16 then none
  else
    let pt := ct.take (ct.length - 16)
    let tag := ct.drop (ct.length - 16)
    if tag = natBytes16 (toyMac k iv pt) then some pt else none

/-- The executable `SubtleCrypto` instance used by the witnesses. -/
def toySubtle : SubtleCrypto where
  enc := toyEnc
  dec := toyDec
  digest := fun bs => bs
  dec_enc := by
    intro k iv pt
    have hlen : (toyEnc k iv pt).length = pt.length + 16 := by
      simp [toyEnc, natBytes16]
    have htake : (toyEnc k iv pt).take ((toyEnc k iv pt).length - 16) = pt := by
      rw [hlen, Nat.add_sub_cancel, toyEnc]
      exact List.take_left pt (natBytes16 (toyMac k iv pt))
    have hdrop : (toyEnc k iv pt).drop ((toyEnc k iv pt).length - 16) =
        natBytes16 (toyMac k iv pt) := by
      rw [hlen, Nat.add_sub_cancel, toyEnc]
      exact List.drop_left pt (natBytes16 (toyMac k iv pt))
    simp only [toyDec]
    rw [if_neg (by omega), htake, hdrop, if_pos rfl]
  enc_bytes := by
    intro k iv pt hpt b hb
    rcases List.mem_append.mp hb with h | h
    · exact hpt b h
    · simp only [natBytes16, List.mem_map, List.mem_range] at h
      rcases h with ⟨i, hi, rfl⟩
      exact Nat.mod_lt _ (by omega)
  enc_ne := by
    intro k iv pt h
    have := congrArg List.length h
    simp [toyEnc, natBytes16] at this

/-- A concrete helper over the witness instance, passphrase `"p"`. -/
def toyHelper : EncryptionHelper := ⟨['p'], toySubtle⟩

/-- `SyncMode` of `settings.ts`: `'disabled' | 'couchdb'`. -/
inductive SyncMode where
  | disabled
  | couchdb
deriving DecidableEq

/-- `CouchDBSyncConfig` of `settings.ts`. -/
structure CouchDBSyncConfig where
  url : List Char
  live : Option Bool
  retry : Option Bool
deriving DecidableEq

/-- `ColorMode` of `settings.ts`. -/
inductive ColorMode where
  | light
  | dark
  | auto
deriving DecidableEq

/-- `ColorScheme` of `settings.ts`. -/
inductive ColorScheme where
  | blue | azure | indigo | purple | pink | red
  | orange | yellow | lime | green | teal | cyan
deriving DecidableEq

/-- `FontFamily` of `settings.ts`. -/
inductive FontFamily where
  | sansSerif
  | serif
  | monospace
deriving DecidableEq

/-- `ThemeBase` of `settings.ts`. -/
inductive ThemeBase where
  | slate | gray | zinc | neutral | stone
deriving DecidableEq

/-- `CornerRadius` of `settings.ts` (`'0' | '0.5' | '1' | '1.5' | '2'`). -/
inductive CornerRadius where
  | r0 | r05 | r1 | r15 | r2
deriving DecidableEq

/-- `ThemeSettings` of `settings.ts`. -/
structure ThemeSettings where
  colorMode : ColorMode
  colorScheme : ColorScheme
  fontFamily : FontFamily
  themeBase : ThemeBase
  cornerRadius : CornerRadius
deriving DecidableEq

/-- `Settings` of `settings.ts`; `_rev` is the optional revision token. -/
structure Settings where
  _rev : Option (List Char)
  autoStopRunning : Bool
  syncMode : SyncMode
  couchdb : Option CouchDBSyncConfig
  theme : ThemeSettings
deriving DecidableEq

/-- `DEFAULT_THEME` of `settings.ts`. -/
def DEFAULT_THEME : ThemeSettings :=
  { colorMode := ColorMode.auto, colorScheme := ColorScheme.blue,
    fontFamily := FontFamily.sansSerif, themeBase := ThemeBase.gray,
    cornerRadius := CornerRadius.r1 }

/-- `DEFAULT_SETTINGS` of `settings.ts`. -/
def DEFAULT_SETTINGS : Settings :=
  { _rev := none, autoStopRunning := true, syncMode := SyncMode.disabled,
    couchdb := none, theme := DEFAULT_THEME }

/-- `getSettingsDocId(appId)`: the string `settings-` followed by the
appId. -/
def getSettingsDocId (appId : List Char) : List Char :=
  ['s', 'e', 't', 't', 'i', 'n', 'g', 's', '-'] ++ appId

/-- `getActiveSyncConfig(settings)` of `settings.ts`. -/
def getActiveSyncConfig (settings : Settings) : Option CouchDBSyncConfig :=
  if settings.syncMode = SyncMode.disabled then none
  else if settings.syncMode = SyncMode.couchdb ∧ settings.couchdb.isSome then settings.couchdb
  else none

/-- Tokens of the JSON text `JSON.stringify` produces for a sync config:
one token per lexical piece, so two values stringify equal iff their token
lists are equal. -/
inductive JTok where
  | objStart
  | objEnd
  | comma
  | colon
  | key (name : List Char)
  | str (value : List Char)
  | boolVal (b : Bool)
  | nullVal
deriving DecidableEq

/-- `JSON.stringify` of one `CouchDBSyncConfig` value, as its token list:
keys in the interface's declaration order (`url`, `live`, `retry`), keys
holding `undefined` omitted — the serialization `updateSettings` compares. -/
def jsonOfConfig (c : CouchDBSyncConfig) : List JTok :=
  [JTok.objStart, JTok.key ['u', 'r', 'l'], JTok.colon, JTok.str c.url] ++
    (match c.live with
      | some b => [JTok.comma, JTok.key ['l', 'i', 'v', 'e'], JTok.colon, JTok.boolVal b]
      | none => []) ++
    (match c.retry with
      | some b => [JTok.comma, JTok.key ['r', 'e', 't', 'r', 'y'], JTok.colon, JTok.boolVal b]
      | none => []) ++
    [JTok.objEnd]

/-- `JSON.stringify` of `getActiveSyncConfig`'s result (`null` for no
config). -/
def jsonOfSyncConfig : Option CouchDBSyncConfig → List JTok
  | none => [JTok.nullVal]
  | some c => jsonOfConfig c

/-- A `Partial<Settings>` value: each key either absent (`none`) or
present with a value to write over the current settings. -/
structure SettingsDelta where
  _rev : Option (Option (List Char))
  autoStopRunning : Option Bool
  syncMode : Option SyncMode
  couchdb : Option (Option CouchDBSyncConfig)
  theme : Option ThemeSettings
deriving DecidableEq

/-- The object spread `{ ...oldSettings, ...settings }` of
`updateSettings`. -/
def mergeSettings (old : Settings) (delta : SettingsDelta) : Settings :=
  { _rev := delta._rev.getD old._rev,
    autoStopRunning := delta.autoStopRunning.getD old.autoStopRunning,
    syncMode := delta.syncMode.getD old.syncMode,
    couchdb := delta.couchdb.getD old.couchdb,
    theme := delta.theme.getD old.theme }

/-- The remote-sync operations `updateSettings` can invoke on the
`DataStore`, in order. -/
inductive SyncAction where
  | disconnect
  | connect (config : CouchDBSyncConfig)
deriving DecidableEq

/-- `updateSettings(settings)` of `auth.svelte.ts`: merge the partial into
the current settings, persist the merge via `saveSettings` (the first
component is the settings value handed to `saveSettings`), and, when the
`JSON.stringify` of the effective sync config before and after differs,
disconnect and re-run `connectToSync` (which connects only when the new
effective config is non-null).  The second component lists the sync
operations performed. -/
def updateSettings (currentSettings : Settings) (delta : SettingsDelta) :
    Settings × List SyncAction :=
  let newSettings := mergeSettings currentSettings delta
  let oldSyncConfig := getActiveSyncConfig currentSettings
  let newSyncConfig := getActiveSyncConfig newSettings
  let syncChanged := jsonOfSyncConfig oldSyncConfig ≠ jsonOfSyncConfig newSyncConfig
  (newSettings,
    if syncChanged then
      SyncAction.disconnect ::
        (match newSyncConfig with
          | some c => [SyncAction.connect c]
          | none => [])
    else [])

/-- `ActivityDoc` of `types.ts` as the in-memory cache holds it: `from`
and `to` are millisecond timestamps (`to = none` means running); the
source's field names `from`/`to` are Lean keywords and appear here as
`fromTS`/`toTS`. -/
structure ActivityDoc where
  _id : List Char
  _rev : Option (List Char)
  task : List Char
  tags : List (List Char)
  fromTS : Int
  toTS : Option Int
  timezone : Option (List Char)
deriving DecidableEq

/-- An `Activity` value as `saveActivity` accepts it: `_id` and `_rev`
may be absent. -/
structure Activity where
  _id : Option (List Char)
  _rev : Option (List Char)
  task : List Char
  tags : List (List Char)
  fromTS : Int
  toTS : Option Int
  timezone : Option (List Char)
deriving DecidableEq

/-- A decrypted document as `handleChange` receives it (`Doc` of
encrypted-pouch): the union of the fields the handler reads for the
`activity` and the `settings` table. -/
structure ChangeDoc where
  _id : List Char
  _rev : Option (List Char)
  task : List Char
  tags : List (List Char)
  fromTS : Int
  toTS : Option Int
  timezone : Option (List Char)
  syncMode : Option SyncMode
  autoStopRunning : Option Bool
  couchdb : Option CouchDBSyncConfig
  theme : Option ThemeSettings
deriving DecidableEq

/-- The reactive state of one `DataStore`: the decrypted in-memory
activities collection and the settings value. -/
structure DataStoreState where
  activities : List ActivityDoc
  settings : Settings
deriving DecidableEq

/-- The table names used for dispatch in `handleChange`. -/
def activityTable : List Char := ['a', 'c', 't', 'i', 'v', 'i', 't', 'y']

/-- The `settings` table name. -/
def settingsTable : List Char := ['s', 'e', 't', 't', 'i', 'n', 'g', 's']

/-- The `ActivityDoc` `handleChange` builds from a delivered `activity`
document. -/
def docToActivity (doc : ChangeDoc) : ActivityDoc :=
  { _id := doc._id, _rev := doc._rev, task := doc.task, tags := doc.tags,
    fromTS := doc.fromTS, toTS := doc.toTS, timezone := doc.timezone }

/-- The `Settings` `handleChange` builds from a delivered `settings`
document (absent fields fall back to `DEFAULT_SETTINGS`; `_rev` is
preserved for the next update). -/
def settingsFromDoc (doc : ChangeDoc) : Settings :=
  { syncMode := doc.syncMode.getD DEFAULT_SETTINGS.syncMode,
    autoStopRunning := doc.autoStopRunning.getD DEFAULT_SETTINGS.autoStopRunning,
    couchdb := doc.couchdb,
    theme := doc.theme.getD DEFAULT_SETTINGS.theme,
    _rev := doc._rev }

/-- The `activity` branch of `handleChange`: replace the entry with the
same `_id` if one exists (`findIndex` then assignment), else push. -/
def upsertActivity (acts : List ActivityDoc) (a : ActivityDoc) : List ActivityDoc :=
  match acts.findIdx? (fun x => decide (x._id = a._id)) with
  | some i => acts.set i a
  | none => acts ++ [a]

/-- Insert one activity into a list kept sorted by `from` descending. -/
def insertFromDesc (a : ActivityDoc) : List ActivityDoc → List ActivityDoc
  | [] => [a]
  | b :: rest =>
    if b.fromTS ≤ a.fromTS then a :: b :: rest else b :: insertFromDesc a rest

/-- `activities.sort((a, b) => b.from - a.from)`: sort by `from`
descending (the comparator induces this order; stability is not relied
on by any theorem). -/
def sortByFromDesc : List ActivityDoc → List ActivityDoc
  | [] => []
  | a :: rest => insertFromDesc a (sortByFromDesc rest)

/-- One document's worth of `handleChange`: dispatch on the table tag.
A `settings` document whose `_id` is not this device's settings id is
skipped (`continue`).  (`applyTheme`, a DOM side effect, is outside the
model.) -/
def handleChangeDoc (appId : List Char) (st : DataStoreState) (table : List Char)
    (doc : ChangeDoc) : DataStoreState :=
  if table = activityTable then
    { st with activities := upsertActivity st.activities (docToActivity doc) }
  else if table = settingsTable then
    if doc._id ≠ getSettingsDocId appId then st
    else { st with settings := settingsFromDoc doc }
  else st

/-- `handleChange(changes)`: fold every doc of every change batch through
the dispatch, then sort the whole activities collection by `from`
descending. -/
def handleChange (appId : List Char) (st : DataStoreState)
    (changes : List (List Char × List ChangeDoc)) : DataStoreState :=
  let st1 := changes.foldl
    (fun acc change => change.2.foldl (fun a doc => handleChangeDoc appId a change.1 doc) acc) st
  { st1 with activities := sortByFromDesc st1.activities }

/-- `ActivityFilter` of `dataStore.svelte.ts`. -/
structure ActivityFilter where
  dateFrom : Option Int
  dateTo : Option Int
  tags : Option (List (List Char))
  running : Option Bool
deriving DecidableEq

/-- `getActivityById(id)`: linear scan of the in-memory collection. -/
def getActivityById (st : DataStoreState) (id : List Char) : Option ActivityDoc :=
  st.activities.find? (fun a => decide (a._id = id))

/-- `getActivities(filter?)`: each filter field is applied only when its
value is truthy (`filter?.dateFrom`, `filter?.dateTo`: present and
nonzero; `filter?.tags`: present and nonempty; `running === true`). -/
def getActivities (st : DataStoreState) (filter : Option ActivityFilter) :
    List ActivityDoc :=
  let l0 := st.activities
  let l1 := match filter.bind ActivityFilter.dateFrom with
    | some d => if d = 0 then l0 else l0.filter (fun a => decide (d ≤ a.fromTS))
    | none => l0
  let l2 := match filter.bind ActivityFilter.dateTo with
    | some d => if d = 0 then l1 else l1.filter (fun a => decide (a.fromTS ≤ d))
    | none => l1
  let l3 := match filter.bind ActivityFilter.tags with
    | some ts => if ts = [] then l2
        else l2.filter (fun a => ts.any (fun tag => a.tags.contains tag))
    | none => l2
  match filter.bind ActivityFilter.running with
  | some true => l3.filter (fun a => a.toTS.isNone)
  | _ => l3

/-- `getCurrentActivity()`: the first activity with `to === null`. -/
def getCurrentActivity (st : DataStoreState) : Option ActivityDoc :=
  st.activities.find? (fun a => a.toTS.isNone)

/-- The cache-level error of `updateActivity`/`deleteActivity`: the
thrown `Error('Activity <id> not found')` — the `NotFoundError` of the
design's error taxonomy. -/
inductive DSError where
  | notFound (id : List Char)
deriving DecidableEq

/-- A `Partial<Activity>` of data fields, as `updateActivity` receives
it. -/
structure ActivityUpdate where
  task : Option (List Char)
  tags : Option (List (List Char))
  fromTS : Option Int
  toTS : Option (Option Int)
  timezone : Option (Option (List Char))
deriving DecidableEq

/-- The spread `{ ...existing, ...updates }` of `updateActivity`. -/
def mergeActivity (existing : ActivityDoc) (updates : ActivityUpdate) : Activity :=
  { _id := some existing._id, _rev := existing._rev,
    task := updates.task.getD existing.task,
    tags := updates.tags.getD existing.tags,
    fromTS := updates.fromTS.getD existing.fromTS,
    toTS := updates.toTS.getD existing.toTS,
    timezone := updates.timezone.getD existing.timezone }

/-- `saveActivity(activity)`: the document handed to
`store.put('activity', ...)`.  `_rev` is copied only when present and
truthy (an empty string is falsy in JS); `_id` is kept only on the
update path. -/
def saveActivity (activity : Activity) : Activity :=
  let isUpdate := activity._id.isSome
  let dataRev := match activity._rev with
    | some r => if r = [] then none else some r
    | none => none
  let activityData : Activity :=
    { _id := none, _rev := dataRev, task := activity.task, tags := activity.tags,
      fromTS := activity.fromTS, toTS := activity.toTS, timezone := activity.timezone }
  if isUpdate then { activityData with _id := activity._id } else activityData

/-- `updateActivity(id, updates)`: read-before-write against the
in-memory cache (`getActivityById`), `Error('Activity <id> not found')`
when absent, else merge and save; the result is the document written by
the underlying `put`. -/
def updateActivity (st : DataStoreState) (id : List Char) (updates : ActivityUpdate) :
    Except DSError Activity :=
  match getActivityById st id with
  | none => Except.error (DSError.notFound id)
  | some existing => Except.ok (saveActivity (mergeActivity existing updates))

/-- The outcome of `EncryptedPouch.loadAll()` inside `DataStore.loadAll`:
either every stored document decrypted, or some decrypt (or read) step
threw. -/
inductive StoreLoadOutcome where
  | success
  | decryptFailure
deriving DecidableEq

/-- The error taxonomy observable from `unlock`. -/
inductive AuthError where
  | validationError
  | accountNotFound
  | invalidPassphrase
deriving DecidableEq

/-- The auth state machine's state (`AuthState` of `auth.svelte.ts`);
the unlocked `DataStore` instance itself is not needed by the claims. -/
inductive AuthState where
  | locked
  | unlocked (username : List Char)
deriving DecidableEq

/-- `DataStore.loadAll()`: any failure of the underlying
`EncryptedPouch.loadAll()` is caught and rethrown as
`InvalidPassphraseError('Incorrect passphrase')`. -/
def dataStoreLoadAll (storeLoad : StoreLoadOutcome) : Except AuthError Unit :=
  match storeLoad with
  | StoreLoadOutcome.success => Except.ok ()
  | StoreLoadOutcome.decryptFailure => Except.error AuthError.invalidPassphrase

/-- `unlock(username, password, ...)`: validate both nonempty, resolve the
appId (modelled as the lookup's result), run `loadAll` — its
`InvalidPassphraseError` is caught and resurfaced as the
`Error('Invalid passphrase')` the UI sees, still the invalid-passphrase
failure of the taxonomy — and only on success assign the unlocked state.
The returned pair is (operation result, app state after the call). -/
def unlock (st : AuthState) (username password : List Char) (appId : Option (List Char))
    (storeLoad : StoreLoadOutcome) : Except AuthError Unit × AuthState :=
  if username = [] ∨ password = [] then (Except.error AuthError.validationError, st)
  else
    match appId with
    | none => (Except.error AuthError.accountNotFound, st)
    | some _ =>
      match dataStoreLoadAll storeLoad with
      | Except.error e => (Except.error e, st)
      | Except.ok _ => (Except.ok (), AuthState.unlocked username)

/-- The input of the C2 counterexample: a valid envelope for plaintext
`"hi"` under `toyHelper` (IV = 12 zero bytes) whose IV half has its first
hex pair replaced by `"zz"`.  The half is not valid hex, yet
`parseInt('zz', 16)` is `NaN`, the `Uint8Array` store turns `NaN` into
byte 0, and the original IV byte was 0 — so the decoded IV is unchanged
and decryption succeeds. -/
def c2Envelope : List Char :=
  ('z' :: 'z' :: List.replicate 22 '0') ++
    ('|' :: toHexString (toyEnc (utf8Encode ['p']) (List.replicate 12 (0 : Nat))
      (utf8Encode ['h', 'i'])))

set_option maxHeartbeats 1000000 in
set_option maxRecDepth 10000 in
theorem parse_byteToHex : ∀ b < 256, toUint8 (jsParseIntHex (byteToHex b)) = b := by decide

theorem hexDigit_props : ∀ n < 16, isHexDigitB (hexDigit n) = true ∧
    isLineTerm (hexDigit n) = false ∧ hexDigit n ≠ '|' ∧
    jsWhitespace (hexDigit n) = false := by decide

theorem byteToHex_inj (b1 b2 : Nat) (h1 : b1 < 256) (h2 : b2 < 256)
    (he : byteToHex b1 = byteToHex b2) : b1 = b2 := by
  have hp := parse_byteToHex b1 h1
  rw [he, parse_byteToHex b2 h2] at hp
  omega

theorem pipe_not_mem_toHexString (bs : List Nat) (h : ∀ x ∈ bs, x < 256) :
    '|' ∉ toHexString bs := by
  induction bs with
  | nil => simp [toHexString]
  | cons b rest ih =>
    have hb : b < 256 := h b (List.mem_cons_self b rest)
    have h1 := (hexDigit_props (b / 16) (by omega)).2.2.1
    have h2 := (hexDigit_props (b % 16) (by omega)).2.2.1
    simp only [toHexString, List.map_cons, List.flatten_cons, byteToHex]
    intro hmem
    rcases List.mem_append.mp hmem with hm | hm
    · rcases List.mem_cons.mp hm with he | hm2
      · exact h1 he.symm
      · rcases List.mem_cons.mp hm2 with he | hm3
        · exact h2 he.symm
        · simp at hm3
    · exact ih (fun x hx => h x (List.mem_cons_of_mem _ hx)) hm

theorem toHexString_length (bs : List Nat) : (toHexString bs).length = 2 * bs.length := by
  induction bs with
  | nil => rfl
  | cons b rest ih =>
    simp only [toHexString, List.map_cons, List.flatten_cons, List.length_append,
      List.length_cons, List.length_nil, byteToHex] at ih ⊢
    omega

theorem toHexString_inj (l1 : List Nat) (h1 : ∀ x ∈ l1, x < 256) :
    ∀ l2, (∀ x ∈ l2, x < 256) → toHexString l1 = toHexString l2 → l1 = l2 := by
  induction l1 with
  | nil =>
    intro l2 h2 he
    cases l2 with
    | nil => rfl
    | cons b r => simp [toHexString, byteToHex] at he
  | cons b r ih =>
    intro l2 h2 he
    cases l2 with
    | nil => simp [toHexString, byteToHex] at he
    | cons b2 r2 =>
      simp only [toHexString, List.map_cons, List.flatten_cons, byteToHex,
        List.cons_append, List.nil_append, List.cons.injEq] at he
      obtain ⟨e1, e2, e3⟩ := he
      have hb : b < 256 := h1 b (List.mem_cons_self b r)
      have hb2 : b2 < 256 := h2 b2 (List.mem_cons_self b2 r2)
      have hbb : b = b2 := by
        apply byteToHex_inj b b2 hb hb2
        simp [byteToHex, e1, e2]
      have hrr : r = r2 := by
        apply ih (fun x hx => h1 x (List.mem_cons_of_mem _ hx)) r2
          (fun x hx => h2 x (List.mem_cons_of_mem _ hx))
        exact e3
      rw [hbb, hrr]

theorem jsSplit_not_mem (sep : Char) (l : List Char) (h : sep ∉ l) :
    jsSplit sep l = [l] := by
  induction l with
  | nil => rfl
  | cons c rest ih =>
    have hc : ¬(c = sep) := fun e => h (e ▸ List.mem_cons_self c rest)
    have hr : sep ∉ rest := fun m => h (List.mem_cons_of_mem _ m)
    rw [jsSplit, if_neg hc, ih hr]

theorem jsSplit_append (sep : Char) (a b : List Char) (ha : sep ∉ a) :
    jsSplit sep (a ++ sep :: b) = a :: jsSplit sep b := by
  induction a with
  | nil =>
    simp only [List.nil_append]
    rw [jsSplit, if_pos rfl]
  | cons c rest ih =>
    have hc : ¬(c = sep) := fun e => ha (e ▸ List.mem_cons_self c rest)
    have hr : sep ∉ rest := fun m => ha (List.mem_cons_of_mem _ m)
    simp only [List.cons_append]
    rw [jsSplit, if_neg hc, ih hr]

theorem jsChunks_toHexString (bs : List Nat) (h : ∀ x ∈ bs, x < 256) :
    jsChunks (toHexString bs) = bs.map byteToHex := by
  induction bs with
  | nil => rfl
  | cons b rest ih =>
    have hb : b < 256 := h b (List.mem_cons_self b rest)
    have h1 := (hexDigit_props (b / 16) (by omega)).2.1
    have h2 := (hexDigit_props (b % 16) (by omega)).2.1
    simp only [toHexString, List.map_cons, List.flatten_cons, byteToHex,
      List.cons_append, List.nil_append]
    rw [jsChunks, if_neg (by simp [h1]), if_neg (by simp [h2])]
    rw [show ((rest.map byteToHex).flatten = toHexString rest) from rfl]
    rw [ih (fun x hx => h x (List.mem_cons_of_mem _ hx))]

theorem map_parse_hex (bs : List Nat) (h : ∀ x ∈ bs, x < 256) :
    (bs.map byteToHex).map (fun chunk => toUint8 (jsParseIntHex chunk)) = bs := by
  induction bs with
  | nil => rfl
  | cons b rest ih =>
    simp only [List.map_cons, List.cons.injEq]
    exact ⟨parse_byteToHex b (h b (List.mem_cons_self b rest)),
      ih (fun x hx => h x (List.mem_cons_of_mem _ hx))⟩

theorem fromHexString_toHexString (bs : List Nat) (hne : bs ≠ [])
    (h : ∀ x ∈ bs, x < 256) :
    EncryptionHelper.fromHexString (toHexString bs) = Except.ok bs := by
  cases bs with
  | nil => exact absurd rfl hne
  | cons b rest =>
    unfold EncryptionHelper.fromHexString
    rw [jsChunks_toHexString _ h]
    have hm := map_parse_hex (b :: rest) h
    simp only [List.map_cons] at hm ⊢
    rw [List.cons.injEq] at hm
    rw [hm.1, hm.2]

theorem char_toNat_lt (c : Char) : c.toNat < 1114112 := by
  have h := c.valid
  rcases h with h | h <;> simp [Char.toNat] <;> omega

theorem utf8EncodeChar_lt (n : Nat) (hn : n < 1114112) : ∀ x ∈ utf8EncodeChar n, x < 256 := by
  intro x hx
  unfold utf8EncodeChar at hx
  split_ifs at hx with h1 h2 h3
  · simp at hx; omega
  · simp at hx; rcases hx with rfl | rfl <;> omega
  · simp at hx; rcases hx with rfl | rfl | rfl <;> omega
  · simp at hx; rcases hx with rfl | rfl | rfl | rfl <;> omega

theorem utf8Encode_lt (s : List Char) : ∀ x ∈ utf8Encode s, x < 256 := by
  induction s with
  | nil => simp [utf8Encode]
  | cons c rest ih =>
    intro x hx
    simp only [utf8Encode, List.map_cons, List.flatten_cons] at hx
    rcases List.mem_append.mp hx with hm | hm
    · exact utf8EncodeChar_lt c.toNat (char_toNat_lt c) x hm
    · exact ih x hm

theorem utf8Decode_encodeChar (n : Nat) (hn : n < 1114112) (rest : List Nat) :
    utf8Decode (utf8EncodeChar n ++ rest) = Char.ofNat n :: utf8Decode rest := by
  by_cases h1 : n < 128
  · have hstep : utf8DecodeStep n rest = (n, 1) := by
      unfold utf8DecodeStep
      rw [if_pos h1]
    rw [utf8EncodeChar, if_pos h1, List.cons_append, List.nil_append, utf8Decode, hstep]
    simp
  · by_cases h2 : n < 2048
    · have hstep : utf8DecodeStep (192 + n / 64) ((128 + n % 64) :: rest) =
          ((192 + n / 64 - 192) * 64 + (128 + n % 64 - 128), 2) := by
        unfold utf8DecodeStep
        rw [if_neg (by omega), if_neg (by omega), if_pos (by omega)]
        dsimp only
        rw [if_pos ⟨by omega, by omega⟩]
      rw [utf8EncodeChar, if_neg h1, if_pos h2, List.cons_append, List.cons_append,
        List.nil_append, utf8Decode, hstep]
      have harg : (192 + n / 64 - 192) * 64 + (128 + n % 64 - 128) = n := by omega
      rw [harg]
      simp
    · by_cases h3 : n < 65536
      · have hstep : utf8DecodeStep (224 + n / 4096) ((128 + n / 64 % 64) :: (128 + n % 64) :: rest) =
            ((224 + n / 4096 - 224) * 4096 + (128 + n / 64 % 64 - 128) * 64 + (128 + n % 64 - 128), 3) := by
          unfold utf8DecodeStep
          rw [if_neg (by omega), if_neg (by omega), if_neg (by omega), if_pos (by omega)]
          dsimp only
          rw [if_pos ⟨⟨by omega, by omega⟩, by omega, by omega⟩]
        rw [utf8EncodeChar, if_neg h1, if_neg h2, if_pos h3, List.cons_append,
          List.cons_append, List.cons_append, List.nil_append, utf8Decode, hstep]
        have harg : (224 + n / 4096 - 224) * 4096 + (128 + n / 64 % 64 - 128) * 64 +
            (128 + n % 64 - 128) = n := by omega
        rw [harg]
        simp
      · have hstep : utf8DecodeStep (240 + n / 262144)
            ((128 + n / 4096 % 64) :: (128 + n / 64 % 64) :: (128 + n % 64) :: rest) =
            ((240 + n / 262144 - 240) * 262144 + (128 + n / 4096 % 64 - 128) * 4096 +
              (128 + n / 64 % 64 - 128) * 64 + (128 + n % 64 - 128), 4) := by
          unfold utf8DecodeStep
          rw [if_neg (by omega), if_neg (by omega), if_neg (by omega), if_neg (by omega),
            if_pos (by omega)]
          dsimp only
          rw [if_pos ⟨⟨by omega, by omega⟩, ⟨by omega, by omega⟩, by omega, by omega⟩]
        rw [utf8EncodeChar, if_neg h1, if_neg h2, if_neg h3, List.cons_append,
          List.cons_append, List.cons_append, List.cons_append, List.nil_append,
          utf8Decode, hstep]
        have harg : (240 + n / 262144 - 240) * 262144 + (128 + n / 4096 % 64 - 128) * 4096 +
            (128 + n / 64 % 64 - 128) * 64 + (128 + n % 64 - 128) = n := by omega
        rw [harg]
        simp

theorem utf8_roundtrip (s : List Char) : utf8Decode (utf8Encode s) = s := by
  induction s with
  | nil => simp [utf8Encode, utf8Decode]
  | cons c rest ih =>
    have he : utf8Encode (c :: rest) = utf8EncodeChar c.toNat ++ utf8Encode rest := by
      simp [utf8Encode]
    rw [he, utf8Decode_encodeChar c.toNat (char_toNat_lt c), ih, Char.ofNat_toNat]

theorem decrypt_encrypt_aux (h : EncryptionHelper) (s : List Char) (iv : List Nat)
    (hlen : iv.length = 12) (hiv : ∀ x ∈ iv, x < 256) :
    h.decrypt (h.encrypt iv s) = Except.ok s := by
  have hct_bytes : ∀ x ∈ h.crypto.enc h.key iv (utf8Encode s), x < 256 :=
    h.crypto.enc_bytes _ _ _ (utf8Encode_lt s)
  have hct_ne : h.crypto.enc h.key iv (utf8Encode s) ≠ [] := h.crypto.enc_ne _ _ _
  have hiv_ne : iv ≠ [] := by
    intro e
    rw [e] at hlen
    simp at hlen
  have hp1 : '|' ∉ toHexString iv := pipe_not_mem_toHexString iv hiv
  have hp2 : '|' ∉ toHexString (h.crypto.enc h.key iv (utf8Encode s)) :=
    pipe_not_mem_toHexString _ hct_bytes
  have hinner : h.decryptInner (h.encrypt iv s) = Except.ok s := by
    unfold EncryptionHelper.decryptInner EncryptionHelper.encrypt
    rw [jsSplit_append '|' _ _ hp1, jsSplit_not_mem '|' _ hp2]
    dsimp only
    rw [fromHexString_toHexString iv hiv_ne hiv,
      fromHexString_toHexString _ hct_ne hct_bytes]
    dsimp only
    rw [h.crypto.dec_enc]
    dsimp only
    rw [utf8_roundtrip]
  unfold EncryptionHelper.decrypt
  rw [hinner]

/-- C1: for every string `s`, every non-empty passphrase (any passphrase an
`EncryptionHelper` can be constructed from), any crypto implementation
satisfying the AES-GCM contract, and any 12-byte IV drawn for the
encryption, decrypting the envelope produced by `encrypt` with the same
helper yields `s` again. -/
theorem encryption_roundtrip (M : SubtleCrypto) (p : List Char) (h : EncryptionHelper)
    (hmk : EncryptionHelper.make M p = some h) (s : List Char) (iv : List Nat)
    (hlen : iv.length = 12) (hiv : ∀ x ∈ iv, x < 256) :
    h.decrypt (h.encrypt iv s) = Except.ok s := by
  have _hp : p ≠ [] := by
    intro e
    rw [EncryptionHelper.make, if_pos e] at hmk
    exact Option.noConfusion hmk
  exact decrypt_encrypt_aux h s iv hlen hiv

theorem encryption_roundtrip_witness :
    EncryptionHelper.decrypt toyHelper
        (EncryptionHelper.encrypt toyHelper (List.range 12) ['h', 'i']) =
      Except.ok ['h', 'i'] :=
  encryption_roundtrip toySubtle ['p'] toyHelper rfl ['h', 'i'] (List.range 12)
    (by decide) (by decide)

/-- C3: encrypting the same plaintext twice with the same helper, the two
calls drawing distinct fresh random 12-byte IVs, yields two different
envelope strings, and each envelope independently decrypts back to the
plaintext. -/
theorem encrypt_twice_distinct (M : SubtleCrypto) (p : List Char) (h : EncryptionHelper)
    (hmk : EncryptionHelper.make M p = some h) (s : List Char) (iv1 iv2 : List Nat)
    (hl1 : iv1.length = 12) (hl2 : iv2.length = 12)
    (hb1 : ∀ x ∈ iv1, x < 256) (hb2 : ∀ x ∈ iv2, x < 256) (hne : iv1 ≠ iv2) :
    h.encrypt iv1 s ≠ h.encrypt iv2 s ∧
      h.decrypt (h.encrypt iv1 s) = Except.ok s ∧
      h.decrypt (h.encrypt iv2 s) = Except.ok s := by
  have _hp : p ≠ [] := by
    intro e
    rw [EncryptionHelper.make, if_pos e] at hmk
    exact Option.noConfusion hmk
  refine ⟨?_, decrypt_encrypt_aux h s iv1 hl1 hb1, decrypt_encrypt_aux h s iv2 hl2 hb2⟩
  intro he
  unfold EncryptionHelper.encrypt at he
  have hlen : (toHexString iv1).length = (toHexString iv2).length := by
    rw [toHexString_length, toHexString_length, hl1, hl2]
  obtain ⟨e1, _e2⟩ := List.append_inj he hlen
  exact hne (toHexString_inj iv1 hb1 iv2 hb2 e1)

theorem encrypt_twice_distinct_witness :
    EncryptionHelper.encrypt toyHelper (List.range 12) ['h', 'i'] ≠
        EncryptionHelper.encrypt toyHelper (List.replicate 12 (0 : Nat)) ['h', 'i'] ∧
      EncryptionHelper.decrypt toyHelper
          (EncryptionHelper.encrypt toyHelper (List.range 12) ['h', 'i']) =
        Except.ok ['h', 'i'] ∧
      EncryptionHelper.decrypt toyHelper
          (EncryptionHelper.encrypt toyHelper (List.replicate 12 (0 : Nat)) ['h', 'i']) =
        Except.ok ['h', 'i'] :=
  encrypt_twice_distinct toySubtle ['p'] toyHelper rfl ['h', 'i'] (List.range 12)
    (List.replicate 12 0) (by decide) (by decide) (by decide) (by decide) (by decide)

/-- C2 (amended): decrypting any input that does not split on the pipe
separator into exactly two parts fails with `DecryptionError`, and every
failure `decrypt` reports is a `DecryptionError` — never a different
exception type, since the catch clause wraps all other errors.  (The
original claim also demanded failure whenever a half is not valid hex;
the counterexample shows hex is parsed leniently and such an input can
decrypt successfully.) -/
theorem decrypt_error_taxonomy (h : EncryptionHelper) (data : List Char) :
    ((jsSplit '|' data).length ≠ 2 → h.decrypt data = Except.error JsError.decryptionError) ∧
    (∀ e, h.decrypt data = Except.error e → e = JsError.decryptionError) := by
  constructor
  · intro hne
    have hinner : h.decryptInner data = Except.error JsError.decryptionError := by
      unfold EncryptionHelper.decryptInner
      rcases hsp : jsSplit '|' data with _ | ⟨a, _ | ⟨b, _ | ⟨c, t⟩⟩⟩
      · rfl
      · rfl
      · rw [hsp] at hne
        simp at hne
      · rfl
    unfold EncryptionHelper.decrypt
    rw [hinner]
  · intro e he
    unfold EncryptionHelper.decrypt at he
    cases hdi : h.decryptInner data with
    | ok v =>
      rw [hdi] at he
      exact Except.noConfusion he
    | error e2 =>
      rw [hdi] at he
      injection he with h1
      exact h1.symm

/-- C2 counterexample: `c2Envelope` has exactly one `'|'`; its first half
contains `'z'` twice and is not valid hex; yet `decrypt` returns the
plaintext `"hi"` instead of failing with a `DecryptionError`. -/
theorem decrypt_nonhex_counterexample :
    (jsSplit '|' c2Envelope).length = 2 ∧
    ((jsSplit '|' c2Envelope).headD []).all isHexDigitB = false ∧
    EncryptionHelper.decrypt toyHelper c2Envelope = Except.ok ['h', 'i'] := by
  have hct_bytes : ∀ x ∈ toyEnc (utf8Encode ['p']) (List.replicate 12 (0 : Nat))
      (utf8Encode ['h', 'i']), x < 256 :=
    toySubtle.enc_bytes _ _ _ (by decide)
  have hct_ne : toyEnc (utf8Encode ['p']) (List.replicate 12 (0 : Nat))
      (utf8Encode ['h', 'i']) ≠ [] :=
    toySubtle.enc_ne _ _ _
  have hp1 : '|' ∉ ('z' :: 'z' :: List.replicate 22 '0') := by decide
  have hp2 : '|' ∉ toHexString (toyEnc (utf8Encode ['p']) (List.replicate 12 (0 : Nat))
      (utf8Encode ['h', 'i'])) :=
    pipe_not_mem_toHexString _ hct_bytes
  have hsplit : jsSplit '|' c2Envelope =
      [('z' :: 'z' :: List.replicate 22 '0'),
        toHexString (toyEnc (utf8Encode ['p']) (List.replicate 12 (0 : Nat))
          (utf8Encode ['h', 'i']))] := by
    unfold c2Envelope
    rw [jsSplit_append '|' _ _ hp1, jsSplit_not_mem '|' _ hp2]
  refine ⟨by rw [hsplit]; rfl, by rw [hsplit]; decide, ?_⟩
  have hinner : EncryptionHelper.decryptInner toyHelper c2Envelope =
      Except.ok ['h', 'i'] := by
    unfold EncryptionHelper.decryptInner
    rw [hsplit]
    dsimp only
    rw [show EncryptionHelper.fromHexString ('z' :: 'z' :: List.replicate 22 '0') =
        Except.ok (List.replicate 12 (0 : Nat)) from rfl]
    rw [fromHexString_toHexString _ hct_ne hct_bytes]
    dsimp only
    rw [show toyHelper.crypto.dec toyHelper.key (List.replicate 12 (0 : Nat))
        (toyEnc (utf8Encode ['p']) (List.replicate 12 (0 : Nat)) (utf8Encode ['h', 'i'])) =
        some (utf8Encode ['h', 'i']) from toySubtle.dec_enc _ _ _]
    dsimp only
    rw [utf8_roundtrip]
  unfold EncryptionHelper.decrypt
  rw [hinner]

/-- C4: `getActiveSyncConfig` is a pure function that returns the remote
connection parameters exactly when the sync mode is `couchdb` and the
connection-parameter object (carrying the required URL) is present, and
returns `none` in every other case — in particular when the sync mode is
`disabled` or the parameters are missing. -/
theorem getActiveSyncConfig_spec (s : Settings) :
    (∀ c, getActiveSyncConfig s = some c ↔
      (s.syncMode = SyncMode.couchdb ∧ s.couchdb = some c)) ∧
    (s.syncMode = SyncMode.disabled → getActiveSyncConfig s = none) ∧
    (s.couchdb = none → getActiveSyncConfig s = none) := by
  cases hm : s.syncMode <;> cases hc : s.couchdb <;>
    simp [getActiveSyncConfig, hm, hc]

theorem jsonOfConfig_inj (c1 c2 : CouchDBSyncConfig)
    (h : jsonOfConfig c1 = jsonOfConfig c2) : c1 = c2 := by
  have hk1 : (['l', 'i', 'v', 'e'] : List Char) ≠ ['r', 'e', 't', 'r', 'y'] := by decide
  have hk2 : (['r', 'e', 't', 'r', 'y'] : List Char) ≠ ['l', 'i', 'v', 'e'] := by decide
  cases c1 with
  | mk u1 l1 r1 =>
    cases c2 with
    | mk u2 l2 r2 =>
      cases l1 <;> cases l2 <;> cases r1 <;> cases r2 <;>
        simp_all [jsonOfConfig]

theorem jsonOfSyncConfig_inj (a b : Option CouchDBSyncConfig)
    (h : jsonOfSyncConfig a = jsonOfSyncConfig b) : a = b := by
  cases a with
  | none =>
    cases b with
    | none => rfl
    | some c =>
      cases c with
      | mk u l r => cases l <;> cases r <;> simp [jsonOfSyncConfig, jsonOfConfig] at h
  | some c =>
    cases b with
    | none =>
      cases c with
      | mk u l r => cases l <;> cases r <;> simp [jsonOfSyncConfig, jsonOfConfig] at h
    | some c2 =>
      rw [jsonOfConfig_inj c c2 h]

/-- C5: `updateSettings` hands `saveSettings` exactly the merge of the
partial into the current settings; it disconnects, and reconnects when a
new config exists, if and only if the effective sync config (the result
of `getActiveSyncConfig`) differs before and after the merge; a partial
that touches neither `syncMode` nor `couchdb` causes no sync operation
at all. -/
theorem updateSettings_spec (s : Settings) (delta : SettingsDelta) :
    (updateSettings s delta).1 = mergeSettings s delta ∧
    ((updateSettings s delta).2 =
      if getActiveSyncConfig (mergeSettings s delta) = getActiveSyncConfig s then []
      else SyncAction.disconnect ::
        (match getActiveSyncConfig (mergeSettings s delta) with
          | some c => [SyncAction.connect c]
          | none => [])) ∧
    (delta.syncMode = none → delta.couchdb = none → (updateSettings s delta).2 = []) := by
  refine ⟨rfl, ?_, ?_⟩
  · by_cases hc : getActiveSyncConfig (mergeSettings s delta) = getActiveSyncConfig s
    · rw [if_pos hc]
      have hj : jsonOfSyncConfig (getActiveSyncConfig s) =
          jsonOfSyncConfig (getActiveSyncConfig (mergeSettings s delta)) := by rw [hc]
      simp [updateSettings, hj]
    · rw [if_neg hc]
      have hj : jsonOfSyncConfig (getActiveSyncConfig s) ≠
          jsonOfSyncConfig (getActiveSyncConfig (mergeSettings s delta)) :=
        fun e => hc (jsonOfSyncConfig_inj _ _ e).symm
      simp [updateSettings, hj]
  · intro h1 h2
    have hmode : (mergeSettings s delta).syncMode = s.syncMode := by
      simp [mergeSettings, h1]
    have hcdb : (mergeSettings s delta).couchdb = s.couchdb := by
      simp [mergeSettings, h2]
    have hcfg : getActiveSyncConfig (mergeSettings s delta) = getActiveSyncConfig s := by
      rw [getActiveSyncConfig, getActiveSyncConfig, hmode, hcdb]
    simp [updateSettings, hcfg]

theorem insertFromDesc_mem (a x : ActivityDoc) (l : List ActivityDoc)
    (hx : x ∈ insertFromDesc a l) : x = a ∨ x ∈ l := by
  induction l with
  | nil =>
    simp [insertFromDesc] at hx
    exact Or.inl hx
  | cons b rest ih =>
    rw [insertFromDesc] at hx
    split_ifs at hx with h
    · rcases List.mem_cons.mp hx with rfl | hx2
      · exact Or.inl rfl
      · exact Or.inr hx2
    · rcases List.mem_cons.mp hx with rfl | hx2
      · exact Or.inr (List.mem_cons_self _ _)
      · rcases ih hx2 with rfl | hx3
        · exact Or.inl rfl
        · exact Or.inr (List.mem_cons_of_mem _ hx3)

theorem insertFromDesc_pairwise (a : ActivityDoc) (l : List ActivityDoc)
    (hl : l.Pairwise (fun x y => y.fromTS ≤ x.fromTS)) :
    (insertFromDesc a l).Pairwise (fun x y => y.fromTS ≤ x.fromTS) := by
  induction l with
  | nil => simp [insertFromDesc]
  | cons b rest ih =>
    rcases List.pairwise_cons.mp hl with ⟨hb, hrest⟩
    rw [insertFromDesc]
    split_ifs with h
    · refine List.pairwise_cons.mpr ⟨?_, hl⟩
      intro y hy
      rcases List.mem_cons.mp hy with rfl | hy2
      · exact h
      · exact le_trans (hb y hy2) h
    · refine List.pairwise_cons.mpr ⟨?_, ih hrest⟩
      intro y hy
      rcases insertFromDesc_mem a y rest hy with rfl | hy2
      · omega
      · exact hb y hy2

theorem sortByFromDesc_pairwise (l : List ActivityDoc) :
    (sortByFromDesc l).Pairwise (fun x y => y.fromTS ≤ x.fromTS) := by
  induction l with
  | nil => simp [sortByFromDesc]
  | cons a rest ih => exact insertFromDesc_pairwise a (sortByFromDesc rest) ih

/-- C6: after the change handler has processed any event batch — in
particular the batches produced by any sequence of `saveActivity`
calls — the in-memory activities collection is sorted by `from`
descending, from any prior state; when the `from` timestamps are
pairwise distinct the order is strictly descending. -/
theorem handleChange_sorted (appId : List Char) (st : DataStoreState)
    (changes : List (List Char × List ChangeDoc)) :
    (handleChange appId st changes).activities.Pairwise
      (fun x y => y.fromTS ≤ x.fromTS) ∧
    ((handleChange appId st changes).activities.Pairwise
        (fun x y => x.fromTS ≠ y.fromTS) →
      (handleChange appId st changes).activities.Pairwise
        (fun x y => y.fromTS < x.fromTS)) := by
  have hsorted : (handleChange appId st changes).activities.Pairwise
      (fun x y => y.fromTS ≤ x.fromTS) := by
    rw [handleChange]
    exact sortByFromDesc_pairwise _
  refine ⟨hsorted, fun hne => ?_⟩
  exact (hsorted.and hne).imp (fun h => lt_of_le_of_ne h.1 (fun e => h.2 e.symm))

/-- C7: a `settings`-type document delivered to the change handler is
applied to the in-memory settings exactly when its document id equals
this device's settings id `settings-<appId>`; a settings document with
any other id is discarded silently — the state is unchanged apart from
the unconditional re-sort of the activities collection. -/
theorem handleChange_settings_filter (appId : List Char) (st : DataStoreState)
    (doc : ChangeDoc) :
    ((handleChange appId st [(settingsTable, [doc])]).settings =
      if doc._id = getSettingsDocId appId then settingsFromDoc doc else st.settings) ∧
    (doc._id ≠ getSettingsDocId appId →
      handleChange appId st [(settingsTable, [doc])] =
        { st with activities := sortByFromDesc st.activities }) := by
  have htab : settingsTable ≠ activityTable := by decide
  constructor
  · rw [handleChange]
    simp only [List.foldl_cons, List.foldl_nil]
    rw [handleChangeDoc, if_neg htab, if_pos rfl]
    by_cases hid : doc._id = getSettingsDocId appId
    · rw [if_pos hid, if_neg (by simpa using hid)]
    · rw [if_neg hid, if_pos hid]
  · intro hid
    rw [handleChange]
    simp only [List.foldl_cons, List.foldl_nil]
    rw [handleChangeDoc, if_neg htab, if_pos rfl, if_pos hid]

/-- C8: `updateActivity` fails with the not-found error whenever the id
is absent from the in-memory collection (the check is against the cache
only — the state holds no storage); when the id is present it writes the
merge of the partial fields over the cached copy, and the cached
(nonempty) revision token is preserved in the written document. -/
theorem updateActivity_spec (st : DataStoreState) (id : List Char)
    (updates : ActivityUpdate) :
    ((∀ a ∈ st.activities, a._id ≠ id) →
      updateActivity st id updates = Except.error (DSError.notFound id)) ∧
    (∀ existing, getActivityById st id = some existing →
      ∀ r, existing._rev = some r → r ≠ [] →
        updateActivity st id updates =
          Except.ok
            { _id := some existing._id, _rev := some r,
              task := updates.task.getD existing.task,
              tags := updates.tags.getD existing.tags,
              fromTS := updates.fromTS.getD existing.fromTS,
              toTS := updates.toTS.getD existing.toTS,
              timezone := updates.timezone.getD existing.timezone }) := by
  constructor
  · intro habs
    have hfind : st.activities.find? (fun a => decide (a._id = id)) = none := by
      rw [List.find?_eq_none]
      intro a ha
      simpa using habs a ha
    rw [updateActivity, getActivityById, hfind]
  · intro existing hex r hrev hrne
    rw [updateActivity, hex]
    dsimp only
    rw [show saveActivity (mergeActivity existing updates) =
      { _id := some existing._id, _rev := some r,
        task := updates.task.getD existing.task,
        tags := updates.tags.getD existing.tags,
        fromTS := updates.fromTS.getD existing.fromTS,
        toTS := updates.toTS.getD existing.toTS,
        timezone := updates.timezone.getD existing.timezone } from ?_]
    rw [saveActivity, mergeActivity]
    simp only [hrev]
    rw [if_neg hrne]
    simp

/-- C9: when unlock is attempted with nonempty credentials on an existing
account and the store's `loadAll` fails to decrypt, `unlock` fails with
the invalid-passphrase error and performs no state transition — the app
state is returned unchanged, so a Locked session remains Locked. -/
theorem unlock_wrong_passphrase (st : AuthState) (username password : List Char)
    (appId : List Char) (hu : username ≠ []) (hp : password ≠ []) :
    unlock st username password (some appId) StoreLoadOutcome.decryptFailure =
      (Except.error AuthError.invalidPassphrase, st) := by
  rw [unlock, if_neg (by simp [hu, hp])]
  rfl

theorem unlock_wrong_passphrase_witness :
    unlock AuthState.locked ['a'] ['w'] (some ['x']) StoreLoadOutcome.decryptFailure =
      (Except.error AuthError.invalidPassphrase, AuthState.locked) :=
  unlock_wrong_passphrase AuthState.locked ['a'] ['w'] ['x'] (by decide) (by decide)

/-- C10: in `getActivities` only truthy filter fields apply: `running :=
false` behaves exactly like no running filter (running and stopped alike),
`dateFrom`/`dateTo` equal to 0 are ignored, an empty filter returns the
whole collection even with `running := false`, and only `running := true`
and nonzero date bounds actually restrict the result. -/
theorem getActivities_truthy_filters (st : DataStoreState) (f : ActivityFilter) :
    getActivities st (some { f with running := some false }) =
      getActivities st (some { f with running := none }) ∧
    getActivities st (some { f with dateFrom := some 0 }) =
      getActivities st (some { f with dateFrom := none }) ∧
    getActivities st (some { f with dateTo := some 0 }) =
      getActivities st (some { f with dateTo := none }) ∧
    (f.dateFrom = none → f.dateTo = none → f.tags = none → f.running = some false →
      getActivities st (some f) = st.activities) ∧
    getActivities st (some { f with running := some true }) =
      (getActivities st (some { f with running := none })).filter
        (fun a => a.toTS.isNone) ∧
    (∀ d : Int, d ≠ 0 →
      getActivities st
          (some { dateFrom := some d, dateTo := none, tags := none, running := none }) =
        st.activities.filter (fun a => decide (d ≤ a.fromTS))) := by
  refine ⟨rfl, ?_, ?_, ?_, rfl, ?_⟩
  · simp [getActivities, Option.bind]
  · simp [getActivities, Option.bind]
  · intro h1 h2 h3 h4
    cases f with
    | mk df dt tg rn =>
      simp only at h1 h2 h3 h4
      subst h1; subst h2; subst h3; subst h4
      rfl
  · intro d hd
    rw [getActivities]
    dsimp only [Option.bind]
    rw [if_neg hd]
